import Mathlib

/-!
Verification of the mp constraint-conversion / backend core against its
specification: a shallow embedding of the solve-status predicates
(BasicBackend, src/include/mp/convert/backend.h), the
feasibility-relaxation penalty fill, MIP solution rounding, kappa
reporting, the converter error wrapping
(src/include/mp/convert/constraint_keeper.h), and the CPLEX solution
status mapper (src/solvers/cplexdirect/cplexbackend.cc), together with
theorems settling the specification claims.

Doubles are embedded as exact rationals (no claim here depends on
floating-point rounding), C++ std::vector reads/writes as List getD/set,
and exceptions as Except values.
-/

set_option maxRecDepth 10000
set_option allowUnsafeReducibility true
attribute [reducible] Rat.add Rat.sub Rat.neg Rat.mul

namespace MpVerify

/-! ### Canonical solve codes (enum mp::sol)

The numeric values of the enum live in mp/common.h, which is not among
the sources at hand; only their order is specified. -/

/-- Modelled from the spec: code for a solved problem. The enum mp::sol
(mp/common.h) is missing from the sources; the spec glossary fixes the
order Solved < Infeasible < ... < Unbounded < Uncertain < Interrupted <
Failure < NotChecked, with Infeasible..Unbounded a contiguous run of
three increasing codes (infeasible, infeasible-or-unbounded, unbounded). -/
def SOLVED : ℤ := 0

/-- Modelled from the spec: first code of the contiguous
infeasible..unbounded range (see `SOLVED`). -/
def INFEASIBLE : ℤ := 200

/-- Modelled from the spec: last code of the contiguous
infeasible..unbounded range, two above `INFEASIBLE` since the range holds
exactly the three increasing codes infeasible, infeasible-or-unbounded,
unbounded. -/
def UNBOUNDED : ℤ := 202

/-- Modelled from the spec: code for an uncertain outcome (see `SOLVED`). -/
def UNCERTAIN : ℤ := 300

/-- Modelled from the spec: code for an interrupted solve (see `SOLVED`). -/
def INTERRUPTED : ℤ := 400

/-- Modelled from the spec: code for a failed solve (see `SOLVED`). -/
def FAILURE : ℤ := 500

/-- Modelled from the spec: pre-solve sentinel code (see `SOLVED`). -/
def NOT_CHECKED : ℤ := 600

/-! ### Solution status adapters (BasicBackend, backend.h lines 461-490) -/

/-- Embeds BasicBackend::IsSolStatusRetrieved:
returns sol::NOT_CHECKED != solve_code_. -/
def IsSolStatusRetrieved (solve_code : ℤ) : Bool :=
  decide (NOT_CHECKED ≠ solve_code)

/-- Embeds BasicBackend::IsProblemSolved:
returns solve_code_ == sol::SOLVED. -/
def IsProblemSolved (solve_code : ℤ) : Bool :=
  decide (solve_code = SOLVED)

/-- Embeds BasicBackend::IsProblemInfOrUnb:
returns sol::INFEASIBLE <= solve_code_ && sol::UNBOUNDED >= solve_code_. -/
def IsProblemInfOrUnb (solve_code : ℤ) : Bool :=
  decide (INFEASIBLE ≤ solve_code ∧ UNBOUNDED ≥ solve_code)

/-- Embeds BasicBackend::IsProblemInfeasible:
returns sol::INFEASIBLE <= solve_code_ && sol::UNBOUNDED > solve_code_. -/
def IsProblemInfeasible (solve_code : ℤ) : Bool :=
  decide (INFEASIBLE ≤ solve_code ∧ UNBOUNDED > solve_code)

/-- Embeds BasicBackend::IsProblemUnbounded:
returns sol::INFEASIBLE < solve_code_ && sol::UNBOUNDED >= solve_code_. -/
def IsProblemUnbounded (solve_code : ℤ) : Bool :=
  decide (INFEASIBLE < solve_code ∧ UNBOUNDED ≥ solve_code)

/-! ### Feasibility-relaxation penalty fill (backend.h lines 923-934) -/

/-- The sequence of write positions of the fill loop
for (size_t i=suf_pen.size(); i--; ) in
BasicBackend::FillFeasRelaxPenalty: suf_pen.size()-1 down to 0. -/
def fillLoopWriteIndices (sufLen : ℕ) : List ℕ := (List.range sufLen).reverse

/-- Embeds BasicBackend::FillFeasRelaxPenalty. Doubles are rationals;
Infinity() is the top element of WithTop. If the suffix array is empty
and the keyword default is negative, return the empty vector; otherwise
build result(n, pen<0 ? inf : pen) and overwrite result[i] for every
suffix position i (negative suffix value also mapping to infinity). -/
def FillFeasRelaxPenalty (suf_pen : List ℚ) (pen : ℚ) (n : ℕ) :
    List (WithTop ℚ) :=
  if suf_pen.isEmpty ∧ pen < 0 then []
  else
    (fillLoopWriteIndices suf_pen.length).foldl
      (fun result i =>
        result.set i
          (if suf_pen.getD i 0 < 0 then ⊤ else (suf_pen.getD i 0 : WithTop ℚ)))
      (List.replicate n (if pen < 0 then ⊤ else (pen : WithTop ℚ)))

/-- The inputs read by BasicBackend::InputFeasRelaxData and the guard in
InputStdExtras: the feasrelax mode option, the three penalty suffixes
(read via ReadDblSuffix) and the three keyword defaults, plus the
variable and constraint counts. -/
structure FeasRelaxInputs where
  feasRelaxMode : ℤ
  suf_lbpen : List ℚ
  suf_ubpen : List ℚ
  suf_rhspen : List ℚ
  lbpen : ℚ
  ubpen : ℚ
  rhspen : ℚ
  numVars : ℕ
  numCons : ℕ

/-- Embeds struct FeasrelaxIO of BasicBackend: mode plus the three
penalty vectors; its operator bool is mode_ != 0. -/
structure FeasrelaxIOData where
  mode : ℤ
  lbpen : List (WithTop ℚ)
  ubpen : List (WithTop ℚ)
  rhspen : List (WithTop ℚ)

/-- The default-constructed FeasrelaxIO: mode_ = 0, empty vectors. -/
def FeasrelaxIOData.initial : FeasrelaxIOData := ⟨0, [], [], []⟩

/-- Embeds BasicBackend::InputFeasRelaxData: if all three suffixes are
empty and all three keyword defaults are negative, return without
touching feasrelax_IOdata(); otherwise set its mode and fill the three
penalty vectors. -/
def InputFeasRelaxData (inp : FeasRelaxInputs) (io : FeasrelaxIOData) :
    FeasrelaxIOData :=
  if inp.suf_lbpen.isEmpty ∧ inp.suf_ubpen.isEmpty ∧ inp.suf_rhspen.isEmpty ∧
      0 > inp.lbpen ∧ 0 > inp.ubpen ∧ 0 > inp.rhspen then
    io
  else
    ⟨inp.feasRelaxMode,
     FillFeasRelaxPenalty inp.suf_lbpen inp.lbpen inp.numVars,
     FillFeasRelaxPenalty inp.suf_ubpen inp.ubpen inp.numVars,
     FillFeasRelaxPenalty inp.suf_rhspen inp.rhspen inp.numCons⟩

/-- Embeds the feasrelax part of BasicBackend::InputStdExtras:
if (feasrelaxMode()) InputFeasRelaxData(). -/
def InputStdExtras_feasrelax (inp : FeasRelaxInputs) (io : FeasrelaxIOData) :
    FeasrelaxIOData :=
  if inp.feasRelaxMode ≠ 0 then InputFeasRelaxData inp io else io

/-! ### MIP solution rounding (backend.h lines 418-459) -/

/-- Embeds std::fabs on the rational embedding of doubles. -/
def fabs (x : ℚ) : ℚ := if x < 0 then -x else x

/-- Embeds std::round: nearest integer, halfway cases away from zero. -/
def cppRound (x : ℚ) : ℤ :=
  if 0 ≤ x then Rat.floor (x + Rat.divInt 1 2)
  else -Rat.floor (-x + Rat.divInt 1 2)

/-- One iteration of the loop body of BasicBackend::DoRound at index j,
acting on the state (sol, nround, maxmodif). -/
def doRoundStep (fAssign : Bool) (fInt : List Bool)
    (st : List ℚ × ℕ × ℚ) (j : ℕ) : List ℚ × ℕ × ℚ :=
  if fInt.getD j false then
    let y : ℚ := (cppRound (st.1.getD j 0) : ℚ)
    let d : ℚ := fabs (st.1.getD j 0 - y)
    if d ≠ 0 then
      ((if fAssign then st.1.set j y else st.1), st.2.1 + 1,
        if st.2.2 < d then d else st.2.2)
    else st
  else st

/-- The index sequence of the loop
for (auto j = std::min(fInt.size(), sol.size()); j--; ): m-1 down to 0. -/
def roundLoopIndices (m : ℕ) : List ℕ := (List.range m).reverse

/-- Embeds BasicBackend::DoRound: scans the integer-flagged entries of
the solution, counting and measuring nonzero deviations from the rounded
value and assigning the rounded value when bit 1 of mip:round is set;
returns the modified solution together with the pair {nround, maxmodif}. -/
def DoRound (roundOpt : ℕ) (fInt : List Bool) (sol : List ℚ) :
    List ℚ × ℕ × ℚ :=
  (roundLoopIndices (min fInt.length sol.length)).foldl
    (doRoundStep (decide (roundOpt &&& 1 ≠ 0)) fInt) (sol, 0, 0)

/-- Deviation of entry j of a solution from its std::round value. -/
def dv (s : List ℚ) (j : ℕ) : ℚ :=
  fabs (s.getD j 0 - (cppRound (s.getD j 0) : ℚ))

/-- Entry j is integer-flagged and deviates from its rounded value. -/
def needsRound (fInt : List Bool) (s : List ℚ) (j : ℕ) : Prop :=
  fInt.getD j false = true ∧ dv s j ≠ 0

instance (fInt : List Bool) (s : List ℚ) (j : ℕ) :
    Decidable (needsRound fInt s j) := by
  unfold needsRound; infer_instance

/-- Embeds the solve-code update of
BasicBackend::ModifySolveCodeAndMessageAfterRounding:
if (round() & 2 && IsSolStatusRetrieved()) solve_code_ = 3 - (round() & 1). -/
def ModifySolveCodeAfterRounding (roundOpt : ℕ) (solve_code : ℤ) : ℤ :=
  if roundOpt &&& 2 ≠ 0 ∧ IsSolStatusRetrieved solve_code = true then
    3 - ((roundOpt &&& 1 : ℕ) : ℤ)
  else solve_code

/-- Embeds the message written by
BasicBackend::ModifySolveCodeAndMessageAfterRounding when round() & 4:
the fmt call with the count, pluralization, would-be marker and maxerr;
the formatted maxerr text is passed in as maxerrStr. -/
def ModifyMessageAfterRounding (roundOpt : ℕ) (nround : ℕ)
    (maxerrStr : String) : String :=
  if roundOpt &&& 4 ≠ 0 then
    "\n" ++ toString nround ++ " integer variable"
      ++ (if 1 < nround then "s" else "") ++ " "
      ++ (if roundOpt &&& 1 ≠ 0 then "" else "would be ")
      ++ "rounded to integer" ++ (if 1 < nround then "s" else "")
      ++ "; maxerr = " ++ maxerrStr
  else ""

/-- Embeds the solve-code effect of BasicBackend::RoundSolution: the
modify step runs only when DoRound reported a nonzero count. -/
def RoundSolutionSolveCode (roundOpt : ℕ) (nround : ℕ) (solve_code : ℤ) : ℤ :=
  if nround ≠ 0 then ModifySolveCodeAfterRounding roundOpt solve_code
  else solve_code

/-- The substring relation used for message claims. -/
def strContains (s pat : String) : Prop := ∃ a b : String, s = a ++ (pat ++ b)

/-! ### Kappa reporting (backend.h lines 317-330 and 384-385) -/

/-- Embeds the guard of BasicBackend::ReportKappa:
if (exportKappa() && 2), a logical && between the int option value and
the constant 2. -/
def ReportKappa_writesSuffix (exportKappa : ℤ) : Bool :=
  decide (exportKappa ≠ 0) && decide ((2 : ℤ) ≠ 0)

/-- Embeds the guard of BasicBackend::ReportStandardSuffixes:
if (IsProblemSolved() && exportKappa()) ReportKappa(). -/
def ReportStandardSuffixes_callsReportKappa (solve_code exportKappa : ℤ) :
    Bool :=
  IsProblemSolved solve_code && decide (exportKappa ≠ 0)

/-- The kappa suffixes are written iff ReportStandardSuffixes calls
ReportKappa and ReportKappa's own guard passes. -/
def kappaSuffixWritten (solve_code exportKappa : ℤ) : Bool :=
  ReportStandardSuffixes_callsReportKappa solve_code exportKappa &&
    ReportKappa_writesSuffix exportKappa

/-- Embeds the guard of the kappa line in BasicBackend::ReportSolution:
if (exportKappa() && 1), a logical && between the int option value and
the constant 1. -/
def ReportSolution_kappaMessageLine (exportKappa : ℤ) : Bool :=
  decide (exportKappa ≠ 0) && decide ((1 : ℤ) ≠ 0)

/-! ### Converter protocol and keeper error wrapping
(constraint_keeper.h lines 25-29 and 135-142) -/

/-- Embeds BasicConstraintConverter::Convert, the default with no
override: throw std::logic_error("Not converting constraint " + name). -/
def BasicConstraintConverter_Convert (constraintName : String) :
    Except String Unit :=
  .error ("Not converting constraint " ++ constraintName)

/-- Embeds ConstraintKeeper::ConvertWith: runs the converter conversion
and re-throws any exception as
logic_error(ConverterName + ": " + exc.what()). -/
def ConstraintKeeper_ConvertWith (converterName : String)
    (conversion : Except String Unit) : Except String Unit :=
  match conversion with
  | .ok _ => .ok ()
  | .error msg => .error (converterName ++ ": " ++ msg)

/-! ### CPLEX solution status mapping (cplexbackend.cc lines 140-180) -/

/-- Which case group of the switch on CPXgetstat's value applies; the
numeric CPX_STAT / CPXMIP constants come from the external CPLEX
headers, so the switch is embedded by its case groups. -/
inductive CpxStatusClass : Type
  | optimal
  | infeasible
  | unbounded
  | infOrUnb
  | unrecognized

/-- Embeds CplexBackend::ConvertSolutionStatus: the recognized cases map
to SOLVED / INFEASIBLE / UNBOUNDED / INFEASIBLE+1; the default case
checks the interrupter first, then the solution-pool count, and falls
back to FAILURE+1. Returns (solve_code, status text). -/
def ConvertSolutionStatus (cls : CpxStatusClass) (interrupter_stop : Bool)
    (solcount : ℤ) : ℤ × String :=
  match cls with
  | .optimal => (SOLVED, "optimal solution")
  | .infeasible => (INFEASIBLE, "infeasible problem")
  | .unbounded => (UNBOUNDED, "unbounded problem")
  | .infOrUnb => (INFEASIBLE + 1, "infeasible or unbounded problem")
  | .unrecognized =>
    if interrupter_stop then (INTERRUPTED, "interrupted")
    else if solcount > 0 then (UNCERTAIN, "feasible solution")
    else (FAILURE + 1, "unknown solution status")

/-! ### Helper lemmas: lists, set/getD, the fill loop -/

theorem getD_set_ne {α : Type} (l : List α) (v d : α) :
    ∀ (i j : ℕ), i ≠ j → (l.set j v).getD i d = l.getD i d := by
  induction l with
  | nil => intro i j _; rfl
  | cons a t ih =>
    intro i j hne
    cases j with
    | zero => cases i with
      | zero => exact absurd rfl hne
      | succ i => rfl
    | succ j => cases i with
      | zero => rfl
      | succ i => simpa using ih i j (by omega)

theorem getD_set_self {α : Type} (l : List α) (v d : α) :
    ∀ (j : ℕ), j < l.length → (l.set j v).getD j d = v := by
  induction l with
  | nil => intro j h; simp at h
  | cons a t ih =>
    intro j h
    cases j with
    | zero => rfl
    | succ j => simpa using ih j (by simpa using h)

theorem getD_replicate {α : Type} (a d : α) :
    ∀ (n i : ℕ), (List.replicate n a).getD i d = if i < n then a else d := by
  intro n
  induction n with
  | zero => intro i; simp
  | succ n ih =>
    intro i
    cases i with
    | zero => simp [List.replicate]
    | succ i => simpa [List.replicate] using ih i

theorem fillLoopWriteIndices_succ (j : ℕ) :
    fillLoopWriteIndices (j + 1) = j :: fillLoopWriteIndices j := by
  simp [fillLoopWriteIndices, List.range_succ]

theorem foldl_set_length {α : Type} (val : ℕ → α) :
    ∀ (j : ℕ) (l : List α),
      ((fillLoopWriteIndices j).foldl (fun r i => r.set i (val i)) l).length
        = l.length := by
  intro j
  induction j with
  | zero => intro l; rfl
  | succ j ih =>
    intro l
    rw [fillLoopWriteIndices_succ, List.foldl_cons, ih, List.length_set]

theorem foldl_set_getD {α : Type} (val : ℕ → α) (d : α) :
    ∀ (j : ℕ) (l : List α) (i : ℕ),
      ((fillLoopWriteIndices j).foldl (fun r i => r.set i (val i)) l).getD i d
        = if i < j ∧ i < l.length then val i else l.getD i d := by
  intro j
  induction j with
  | zero => intro l i; simp [fillLoopWriteIndices]
  | succ j ih =>
    intro l i
    rw [fillLoopWriteIndices_succ, List.foldl_cons, ih]
    rcases Nat.lt_trichotomy i j with hij | rfl | hij
    · by_cases hc : i < j ∧ i < l.length
      · simp only [List.length_set]
        rw [if_pos ⟨hij, hc.2⟩, if_pos ⟨by omega, hc.2⟩]
      · have hns : ¬(i < j ∧ i < (l.set j (val j)).length) := by
          simp [List.length_set]; omega
        rw [if_neg hns, if_neg (by simp [List.length_set] at hns ⊢; omega)]
        exact getD_set_ne l (val j) d i j (by omega)
    · rw [if_neg (by omega)]
      by_cases hl : i < l.length
      · rw [if_pos ⟨by omega, hl⟩]
        exact getD_set_self l (val i) d i hl
      · rw [if_neg (by omega)]
        have hset : l.set i (val i) = l := List.set_eq_of_length_le (by omega)
        rw [hset]
    · rw [if_neg (by omega), if_neg (by omega)]
      exact getD_set_ne l (val j) d i j (by omega)

/-! ### Helper lemmas: the rounding loop -/

theorem dv_set_ne (s : List ℚ) (y : ℚ) (i j : ℕ) (h : i ≠ j) :
    dv (s.set j y) i = dv s i := by
  unfold dv
  rw [getD_set_ne s y 0 i j h]

theorem needsRound_set_ne (fInt : List Bool) (s : List ℚ) (y : ℚ) (i j : ℕ)
    (h : i ≠ j) : needsRound fInt (s.set j y) i ↔ needsRound fInt s i := by
  unfold needsRound
  rw [dv_set_ne s y i j h]

theorem roundLoopIndices_succ (j : ℕ) :
    roundLoopIndices (j + 1) = j :: roundLoopIndices j := by
  simp [roundLoopIndices, List.range_succ]

theorem doRoundStep_no_flag (fAssign : Bool) (fInt : List Bool)
    (st : List ℚ × ℕ × ℚ) (j : ℕ) (h : fInt.getD j false = false) :
    doRoundStep fAssign fInt st j = st := by
  simp only [List.getD_eq_getElem?_getD] at h
  simp [doRoundStep, List.getD_eq_getElem?_getD, h]

theorem doRoundStep_zero_dev (fAssign : Bool) (fInt : List Bool)
    (st : List ℚ × ℕ × ℚ) (j : ℕ) (h : fInt.getD j false = true)
    (hd : dv st.1 j = 0) :
    doRoundStep fAssign fInt st j = st := by
  simp only [List.getD_eq_getElem?_getD] at h
  simp only [dv, List.getD_eq_getElem?_getD] at hd
  simp [doRoundStep, List.getD_eq_getElem?_getD, h, hd]

theorem doRoundStep_needs (fAssign : Bool) (fInt : List Bool)
    (st : List ℚ × ℕ × ℚ) (j : ℕ) (h : fInt.getD j false = true)
    (hd : dv st.1 j ≠ 0) :
    doRoundStep fAssign fInt st j =
      ((if fAssign then st.1.set j (cppRound (st.1.getD j 0) : ℚ) else st.1),
        st.2.1 + 1,
        if st.2.2 < dv st.1 j then dv st.1 j else st.2.2) := by
  simp only [List.getD_eq_getElem?_getD] at h
  simp only [dv, List.getD_eq_getElem?_getD] at hd
  simp [doRoundStep, dv, List.getD_eq_getElem?_getD, h, hd]

theorem doRound_loop_length (fAssign : Bool) (fInt : List Bool) :
    ∀ (j : ℕ) (s : List ℚ) (c : ℕ) (m : ℚ),
      (((roundLoopIndices j).foldl (doRoundStep fAssign fInt) (s, c, m)).1).length
        = s.length := by
  intro j
  induction j with
  | zero => intro s c m; rfl
  | succ j ih =>
    intro s c m
    rw [roundLoopIndices_succ, List.foldl_cons]
    by_cases hf : fInt.getD j false = true
    · by_cases hd : dv s j = 0
      · rw [doRoundStep_zero_dev fAssign fInt (s, c, m) j hf hd]
        exact ih s c m
      · rw [doRoundStep_needs fAssign fInt (s, c, m) j hf hd]
        cases fAssign with
        | false => simpa using ih s (c+1) _
        | true =>
          simpa [List.length_set] using
            ih (s.set j (cppRound (s.getD j 0) : ℚ)) (c+1) _
    · rw [doRoundStep_no_flag fAssign fInt (s, c, m) j (by simpa using hf)]
      exact ih s c m

theorem cond_iff_succ (b : Bool) (P : Prop) (i j : ℕ) (hex : i = j → ¬P) :
    (b = true ∧ i < j ∧ P) ↔ (b = true ∧ i < j + 1 ∧ P) := by
  constructor
  · rintro ⟨ha, hb, hc⟩; exact ⟨ha, by omega, hc⟩
  · rintro ⟨ha, hb, hc⟩
    refine ⟨ha, ?_, hc⟩
    rcases Nat.lt_succ_iff_lt_or_eq.mp hb with h | h
    · exact h
    · exact absurd hc (hex h)

theorem doRound_loop_getD (fAssign : Bool) (fInt : List Bool) :
    ∀ (j : ℕ) (s : List ℚ) (c : ℕ) (m : ℚ), j ≤ s.length → ∀ i,
      (((roundLoopIndices j).foldl (doRoundStep fAssign fInt) (s, c, m)).1).getD i 0
        = if fAssign = true ∧ i < j ∧ needsRound fInt s i
          then (cppRound (s.getD i 0) : ℚ) else s.getD i 0 := by
  intro j
  induction j with
  | zero =>
    intro s c m _ i
    simp [roundLoopIndices]
  | succ j ih =>
    intro s c m hj i
    rw [roundLoopIndices_succ, List.foldl_cons]
    by_cases hf : fInt.getD j false = true
    · by_cases hd : dv s j = 0
      · rw [doRoundStep_zero_dev fAssign fInt (s, c, m) j hf hd]
        rw [ih s c m (by omega) i]
        have hex : i = j → ¬needsRound fInt s i := by
          rintro rfl hn; exact hn.2 hd
        rw [if_congr (cond_iff_succ fAssign _ i j hex) rfl rfl]
      · rw [doRoundStep_needs fAssign fInt (s, c, m) j hf hd]
        cases fAssign with
        | false =>
          rw [if_neg (by decide)]
          rw [ih s (c+1) _ (by omega) i]
          simp only [Bool.false_eq_true, false_and, if_false]
        | true =>
          rw [if_pos rfl]
          rw [ih (s.set j (cppRound (s.getD j 0) : ℚ)) (c+1) _
            (by rw [List.length_set]; omega) i]
          by_cases hij : i = j
          · subst hij
            have hilen : i < s.length := by omega
            rw [getD_set_self s _ 0 i hilen]
            have hnr : needsRound fInt s i := ⟨hf, hd⟩
            simp [hnr, show i < i + 1 by omega]
          · rw [getD_set_ne s _ 0 i j hij]
            have hrw : needsRound fInt (s.set j ((cppRound (s.getD j 0) : ℤ) : ℚ)) i
                ↔ needsRound fInt s i := needsRound_set_ne fInt s _ i j hij
            rw [if_congr (and_congr_right fun _ => and_congr_right fun _ => hrw)
              rfl rfl]
            have hex : i = j → ¬needsRound fInt s i := fun h => absurd h hij
            rw [if_congr (cond_iff_succ true _ i j hex) rfl rfl]
    · rw [doRoundStep_no_flag fAssign fInt (s, c, m) j (by simpa using hf)]
      rw [ih s c m (by omega) i]
      have hex : i = j → ¬needsRound fInt s i := by
        rintro rfl hn; exact hf hn.1
      rw [if_congr (cond_iff_succ fAssign _ i j hex) rfl rfl]

theorem filter_range_congr (p q : ℕ → Bool) (j : ℕ)
    (h : ∀ i, i < j → p i = q i) :
    (List.range j).filter p = (List.range j).filter q := by
  apply List.filter_congr
  intro i hi
  exact h i (List.mem_range.mp hi)

theorem doRound_loop_count (fAssign : Bool) (fInt : List Bool) :
    ∀ (j : ℕ) (s : List ℚ) (c : ℕ) (m : ℚ), j ≤ s.length →
      (((roundLoopIndices j).foldl (doRoundStep fAssign fInt) (s, c, m)).2.1)
        = c + ((List.range j).filter
            (fun i => decide (needsRound fInt s i))).length := by
  intro j
  induction j with
  | zero =>
    intro s c m _
    simp [roundLoopIndices]
  | succ j ih =>
    intro s c m hj
    rw [roundLoopIndices_succ, List.foldl_cons, List.range_succ,
      List.filter_append]
    by_cases hf : fInt.getD j false = true
    · by_cases hd : dv s j = 0
      · rw [doRoundStep_zero_dev fAssign fInt (s, c, m) j hf hd]
        rw [ih s c m (by omega)]
        have hnr : ¬needsRound fInt s j := fun hn => hn.2 hd
        simp [hnr]
      · rw [doRoundStep_needs fAssign fInt (s, c, m) j hf hd]
        have hnr : needsRound fInt s j := ⟨hf, hd⟩
        cases fAssign with
        | false =>
          rw [if_neg (by decide)]
          rw [ih s (c+1) _ (by omega)]
          simp [hnr]
          omega
        | true =>
          rw [if_pos rfl]
          rw [ih (s.set j (cppRound (s.getD j 0) : ℚ)) (c+1) _
            (by rw [List.length_set]; omega)]
          have hcongr : (List.range j).filter
              (fun i => decide (needsRound fInt
                (s.set j ((cppRound (s.getD j 0) : ℤ) : ℚ)) i))
              = (List.range j).filter (fun i => decide (needsRound fInt s i)) := by
            apply filter_range_congr
            intro i hi
            have h2 := needsRound_set_ne fInt s ((cppRound (s.getD j 0) : ℤ) : ℚ) i j
              (by omega)
            simp only [List.getD_eq_getElem?_getD] at h2 ⊢
            simp only [decide_eq_decide]
            exact h2
          rw [hcongr]
          simp [hnr]
          omega
    · rw [doRoundStep_no_flag fAssign fInt (s, c, m) j (by simpa using hf)]
      rw [ih s c m (by omega)]
      have hnr : ¬needsRound fInt s j := by
        intro hn
        exact hf hn.1
      simp [hnr]

theorem doRound_loop_max (fAssign : Bool) (fInt : List Bool) :
    ∀ (j : ℕ) (s : List ℚ) (c : ℕ) (m : ℚ), j ≤ s.length →
      m ≤ (((roundLoopIndices j).foldl (doRoundStep fAssign fInt) (s, c, m)).2.2) ∧
      (∀ i, i < j → needsRound fInt s i →
        dv s i ≤ (((roundLoopIndices j).foldl (doRoundStep fAssign fInt) (s, c, m)).2.2)) ∧
      ((((roundLoopIndices j).foldl (doRoundStep fAssign fInt) (s, c, m)).2.2) = m ∨
        ∃ i, i < j ∧ needsRound fInt s i ∧
          dv s i = (((roundLoopIndices j).foldl (doRoundStep fAssign fInt) (s, c, m)).2.2)) := by
  intro j
  induction j with
  | zero =>
    intro s c m _
    refine ⟨le_refl m, ?_, Or.inl rfl⟩
    intro i hi
    omega
  | succ j ih =>
    intro s c m hj
    rw [roundLoopIndices_succ, List.foldl_cons]
    by_cases hf : fInt.getD j false = true
    · by_cases hd : dv s j = 0
      · rw [doRoundStep_zero_dev fAssign fInt (s, c, m) j hf hd]
        obtain ⟨h1, h2, h3⟩ := ih s c m (by omega)
        refine ⟨h1, ?_, ?_⟩
        · intro i hi hneed
          rcases Nat.lt_succ_iff_lt_or_eq.mp hi with h | h
          · exact h2 i h hneed
          · exact absurd hneed (fun hn => hn.2 (h ▸ hd))
        · rcases h3 with h | ⟨i, hi, hn, he⟩
          · exact Or.inl h
          · exact Or.inr ⟨i, by omega, hn, he⟩
      · have hnr : needsRound fInt s j := ⟨hf, hd⟩
        rw [doRoundStep_needs fAssign fInt (s, c, m) j hf hd]
        dsimp only
        set m' : ℚ := if m < dv s j then dv s j else m with hm'
        have hmle : m ≤ m' := by
          rw [hm']
          by_cases hc : m < dv s j
          · rw [if_pos hc]; exact le_of_lt hc
          · rw [if_neg hc]
        have hdle : dv s j ≤ m' := by
          rw [hm']
          by_cases hc : m < dv s j
          · rw [if_pos hc]
          · rw [if_neg hc]; exact le_of_not_lt hc
        have hm'cases : m' = dv s j ∨ m' = m := by
          rw [hm']
          by_cases hc : m < dv s j
          · rw [if_pos hc]; exact Or.inl rfl
          · rw [if_neg hc]; exact Or.inr rfl
        cases fAssign with
        | false =>
          rw [if_neg (by decide)]
          obtain ⟨h1, h2, h3⟩ := ih s (c+1) m' (by omega)
          refine ⟨le_trans hmle h1, ?_, ?_⟩
          · intro i hi hneed
            rcases Nat.lt_succ_iff_lt_or_eq.mp hi with h | h
            · exact h2 i h hneed
            · subst h
              exact le_trans hdle h1
          · rcases h3 with h | ⟨i, hi, hn, he⟩
            · rcases hm'cases with hc | hc
              · exact Or.inr ⟨j, by omega, hnr, by rw [h, hc]⟩
              · exact Or.inl (by rw [h, hc])
            · exact Or.inr ⟨i, by omega, hn, he⟩
        | true =>
          rw [if_pos rfl]
          set s' := s.set j ((cppRound (s.getD j 0) : ℤ) : ℚ) with hs'
          obtain ⟨h1, h2, h3⟩ := ih s' (c+1) m' (by rw [hs', List.length_set]; omega)
          refine ⟨le_trans hmle h1, ?_, ?_⟩
          · intro i hi hneed
            rcases Nat.lt_succ_iff_lt_or_eq.mp hi with h | h
            · have hne : needsRound fInt s' i := by
                rw [hs']
                exact (needsRound_set_ne fInt s _ i j (by omega)).mpr hneed
              have hle := h2 i h hne
              rwa [hs', dv_set_ne s _ i j (by omega)] at hle
            · subst h
              exact le_trans hdle h1
          · rcases h3 with h | ⟨i, hi, hn, he⟩
            · rcases hm'cases with hc | hc
              · exact Or.inr ⟨j, by omega, hnr, by rw [h, hc]⟩
              · exact Or.inl (by rw [h, hc])
            · refine Or.inr ⟨i, by omega, ?_, ?_⟩
              · have hn' := hn
                rw [hs'] at hn'
                exact (needsRound_set_ne fInt s _ i j (by omega)).mp hn'
              · have he' := he
                rw [hs', dv_set_ne s _ i j (by omega)] at he'
                exact he'
    · rw [doRoundStep_no_flag fAssign fInt (s, c, m) j (by simpa using hf)]
      obtain ⟨h1, h2, h3⟩ := ih s c m (by omega)
      refine ⟨h1, ?_, ?_⟩
      · intro i hi hneed
        rcases Nat.lt_succ_iff_lt_or_eq.mp hi with h | h
        · exact h2 i h hneed
        · exact absurd hneed (fun hn => hf (h ▸ hn.1))
      · rcases h3 with h | ⟨i, hi, hn, he⟩
        · exact Or.inl h
        · exact Or.inr ⟨i, by omega, hn, he⟩

theorem strContains_append_left (prev s pat : String) (h : strContains s pat) :
    strContains (prev ++ s) pat := by
  obtain ⟨a, b, rfl⟩ := h
  exact ⟨prev ++ a, b, by rw [String.append_assoc]⟩

end MpVerify

namespace MpVerify

/-! ### Claim theorems -/

/-- C1: for every retrieved solve code S, IsProblemSolved(S) holds iff
S is the Solved code, IsProblemInfOrUnb(S) holds iff
Infeasible <= S <= Unbounded, and the two predicates never hold
simultaneously. -/
theorem c1_solved_and_infOrUnb_predicates (S : ℤ)
    (h : IsSolStatusRetrieved S = true) :
    (IsProblemSolved S = true ↔ S = SOLVED) ∧
    (IsProblemInfOrUnb S = true ↔ (INFEASIBLE ≤ S ∧ S ≤ UNBOUNDED)) ∧
    ¬(IsProblemSolved S = true ∧ IsProblemInfOrUnb S = true) := by
  refine ⟨?_, ?_, ?_⟩
  · simp [IsProblemSolved]
  · simp [IsProblemInfOrUnb, and_comm]
  · intro hc
    have h1 := of_decide_eq_true hc.1
    have h2 := of_decide_eq_true hc.2
    simp only [SOLVED, INFEASIBLE, UNBOUNDED] at h1 h2
    omega

/-- Witness for C1 at the Solved code. -/
theorem c1_solved_and_infOrUnb_predicates_witness :
    (IsProblemSolved 0 = true ↔ (0 : ℤ) = SOLVED) ∧
    (IsProblemInfOrUnb 0 = true ↔ (INFEASIBLE ≤ (0 : ℤ) ∧ (0 : ℤ) ≤ UNBOUNDED)) ∧
    ¬(IsProblemSolved 0 = true ∧ IsProblemInfOrUnb 0 = true) :=
  c1_solved_and_infOrUnb_predicates 0 (by decide)

/-- C2: FillFeasRelaxPenalty returns the empty array when the override
array is empty and the default is negative; otherwise (for override
length at most n, matching the loop bounds) it returns a length-n array
whose entry i is the override value at i when provided (negative
override becoming Infinity) and the scalar default otherwise (negative
default becoming Infinity); in particular the two spec scenarios hold. -/
theorem c2_fill_feasrelax_penalty (suf : List ℚ) (pen : ℚ) (n : ℕ)
    (h : suf.length ≤ n) :
    ((suf = [] ∧ pen < 0) → FillFeasRelaxPenalty suf pen n = []) ∧
    (¬(suf = [] ∧ pen < 0) →
      (FillFeasRelaxPenalty suf pen n).length = n ∧
      ∀ i, i < n → (FillFeasRelaxPenalty suf pen n).getD i ⊤ =
        (if i < suf.length then
          (if suf.getD i 0 < 0 then ⊤ else (suf.getD i 0 : WithTop ℚ))
        else
          (if pen < 0 then ⊤ else (pen : WithTop ℚ)))) ∧
    FillFeasRelaxPenalty [] (-1) 3 = [] ∧
    FillFeasRelaxPenalty [-1, 2] 1 3 =
      [(⊤ : WithTop ℚ), ((2 : ℚ) : WithTop ℚ), ((1 : ℚ) : WithTop ℚ)] := by
  refine ⟨?_, ?_, by decide, by decide⟩
  · rintro ⟨rfl, hpen⟩
    simp [FillFeasRelaxPenalty, hpen]
  · intro hne
    have hcond : ¬(suf.isEmpty ∧ pen < 0) := by
      intro hcc
      exact hne ⟨List.isEmpty_iff.mp hcc.1, hcc.2⟩
    constructor
    · rw [FillFeasRelaxPenalty, if_neg hcond, foldl_set_length,
        List.length_replicate]
    · intro i hi
      rw [FillFeasRelaxPenalty, if_neg hcond, foldl_set_getD,
        List.length_replicate, getD_replicate]
      by_cases hsuf : i < suf.length
      · rw [if_pos ⟨hsuf, by omega⟩, if_pos hsuf]
      · rw [if_neg (by omega), if_neg hsuf, if_pos hi]

/-- Witness for C2 at the spec scenario override=[-1,2], default=1, n=3. -/
theorem c2_fill_feasrelax_penalty_witness :
    (FillFeasRelaxPenalty [-1, 2] 1 3).length = 3 ∧
    FillFeasRelaxPenalty [] (-1) 3 = [] := by
  have h := c2_fill_feasrelax_penalty [-1, 2] 1 3 (by decide)
  exact ⟨(h.2.1 (by decide)).1, h.2.2.1⟩

/-- C3: DoRound counts exactly the integer-flagged entries whose value
deviates from its rounded value, the returned maxerr bounds every such
deviation and is attained (or zero), entries are overwritten with the
rounded value exactly when the assign bit (bit 1) of mip:round is set,
and the concrete scenario of the spec evaluates to count 2, maxerr
4999999/10000000 (about 0.5), solution [1, 2.7, 3], with the appended
message containing "2 integer variables" and "rounded". -/
theorem c3_do_round (roundOpt : ℕ) (fInt : List Bool) (sol : List ℚ) :
    ((DoRound roundOpt fInt sol).2.1
        = ((List.range (min fInt.length sol.length)).filter
            (fun i => decide (needsRound fInt sol i))).length) ∧
    (∀ i, i < min fInt.length sol.length → needsRound fInt sol i →
        dv sol i ≤ (DoRound roundOpt fInt sol).2.2) ∧
    ((DoRound roundOpt fInt sol).2.2 = 0 ∨
      ∃ i, i < min fInt.length sol.length ∧ needsRound fInt sol i ∧
        dv sol i = (DoRound roundOpt fInt sol).2.2) ∧
    (DoRound roundOpt fInt sol).1.length = sol.length ∧
    (∀ i, (DoRound roundOpt fInt sol).1.getD i 0
        = if roundOpt &&& 1 ≠ 0 ∧ i < min fInt.length sol.length ∧
              needsRound fInt sol i
          then (cppRound (sol.getD i 0) : ℚ) else sol.getD i 0) ∧
    DoRound 5 [true, false, true]
        [Rat.divInt 14999999 10000000, Rat.divInt 27 10,
          Rat.divInt 30000001 10000000]
      = ([1, Rat.divInt 27 10, 3], 2, Rat.divInt 4999999 10000000) ∧
    (∀ prev t : String,
      strContains (prev ++ ModifyMessageAfterRounding 5 2 t)
        "2 integer variables" ∧
      strContains (prev ++ ModifyMessageAfterRounding 5 2 t) "rounded") := by
  have hlen : min fInt.length sol.length ≤ sol.length := Nat.min_le_right _ _
  refine ⟨?_, ?_, ?_, ?_, ?_, by decide, ?_⟩
  · rw [DoRound, doRound_loop_count _ fInt _ sol 0 0 hlen]
    omega
  · intro i hi hn
    exact (doRound_loop_max _ fInt _ sol 0 0 hlen).2.1 i hi hn
  · exact (doRound_loop_max _ fInt _ sol 0 0 hlen).2.2
  · exact doRound_loop_length _ fInt _ sol 0 0
  · intro i
    rw [DoRound, doRound_loop_getD _ fInt _ sol 0 0 hlen i]
    exact if_congr (by simp) rfl rfl
  · intro prev t
    have hmsg : ModifyMessageAfterRounding 5 2 t
        = "\n2 integer variables rounded to integers; maxerr = " ++ t := by
      with_unfolding_all rfl
    rw [hmsg]
    constructor
    · exact strContains_append_left prev _ _
        ⟨"\n", " rounded to integers; maxerr = " ++ t, by with_unfolding_all rfl⟩
    · exact strContains_append_left prev _ _
        ⟨"\n2 integer variables ", " to integers; maxerr = " ++ t,
          by with_unfolding_all rfl⟩

/-- Witness for C3 at the spec scenario: the deviation at index 0 is
bounded by the returned maxerr, and the full concrete evaluation. -/
theorem c3_do_round_witness :
    dv [Rat.divInt 14999999 10000000, Rat.divInt 27 10,
        Rat.divInt 30000001 10000000] 0
      ≤ (DoRound 5 [true, false, true]
          [Rat.divInt 14999999 10000000, Rat.divInt 27 10,
            Rat.divInt 30000001 10000000]).2.2 ∧
    DoRound 5 [true, false, true]
        [Rat.divInt 14999999 10000000, Rat.divInt 27 10,
          Rat.divInt 30000001 10000000]
      = ([1, Rat.divInt 27 10, 3], 2, Rat.divInt 4999999 10000000) := by
  have h := c3_do_round 5 [true, false, true]
    [Rat.divInt 14999999 10000000, Rat.divInt 27 10,
      Rat.divInt 30000001 10000000]
  exact ⟨h.2.1 0 (by decide) (by with_unfolding_all decide), h.2.2.2.2.2.1⟩

/-- C4 counterexample: at the interior infeasible-or-unbounded code
(INFEASIBLE + 1, the midpoint of the range) BOTH IsProblemInfeasible and
IsProblemUnbounded hold, refuting the claim that exactly one of them
holds for every status in the range. -/
theorem c4_counterexample :
    INFEASIBLE ≤ INFEASIBLE + 1 ∧ INFEASIBLE + 1 ≤ UNBOUNDED ∧
    IsProblemInfeasible (INFEASIBLE + 1) = true ∧
    IsProblemUnbounded (INFEASIBLE + 1) = true := by
  decide

/-- C4 (amended): on the range Infeasible <= S <= Unbounded, at least one
of IsProblemInfeasible(S), IsProblemUnbounded(S) holds; at S = Infeasible
only the first holds, at S = Unbounded only the second, and at every
strictly interior status (the infeasible-or-unbounded midpoint) both hold. -/
theorem c4_infeasible_unbounded_overlap (S : ℤ)
    (h : INFEASIBLE ≤ S ∧ S ≤ UNBOUNDED) :
    (IsProblemInfeasible S = true ∨ IsProblemUnbounded S = true) ∧
    (S = INFEASIBLE →
      IsProblemInfeasible S = true ∧ IsProblemUnbounded S = false) ∧
    (S = UNBOUNDED →
      IsProblemUnbounded S = true ∧ IsProblemInfeasible S = false) ∧
    (INFEASIBLE < S → S < UNBOUNDED →
      IsProblemInfeasible S = true ∧ IsProblemUnbounded S = true) := by
  simp only [IsProblemInfeasible, IsProblemUnbounded, INFEASIBLE, UNBOUNDED,
    decide_eq_true_eq, decide_eq_false_iff_not, gt_iff_lt, ge_iff_le] at *
  omega

/-- Witness for C4's amended theorem at the midpoint code 201. -/
theorem c4_infeasible_unbounded_overlap_witness :
    ((IsProblemInfeasible 201 = true ∨ IsProblemUnbounded 201 = true) ∧
    ((201 : ℤ) = INFEASIBLE →
      IsProblemInfeasible 201 = true ∧ IsProblemUnbounded 201 = false) ∧
    ((201 : ℤ) = UNBOUNDED →
      IsProblemUnbounded 201 = true ∧ IsProblemInfeasible 201 = false) ∧
    (INFEASIBLE < (201 : ℤ) → (201 : ℤ) < UNBOUNDED →
      IsProblemInfeasible 201 = true ∧ IsProblemUnbounded 201 = true)) :=
  c4_infeasible_unbounded_overlap 201 (by decide)

/-- C5: after the rounding scan, when the count is nonzero, bit 2 of
mip:round is set and a status was retrieved, the solve code becomes
3 - (round & 1), i.e. 2 with the assign bit set and 3 without it; when
the count is zero, bit 2 is clear, or no status was retrieved, the solve
code is unchanged. -/
theorem c5_round_solve_code (r : ℕ) (n : ℕ) (code : ℤ) :
    (n ≠ 0 → r &&& 2 ≠ 0 → IsSolStatusRetrieved code = true →
      (RoundSolutionSolveCode r n code = 3 - ((r &&& 1 : ℕ) : ℤ) ∧
       (r &&& 1 = 1 → RoundSolutionSolveCode r n code = 2) ∧
       (r &&& 1 = 0 → RoundSolutionSolveCode r n code = 3) ∧
       (2 : ℤ) ≠ 3)) ∧
    (n = 0 → RoundSolutionSolveCode r n code = code) ∧
    (r &&& 2 = 0 → RoundSolutionSolveCode r n code = code) ∧
    (IsSolStatusRetrieved code = false → RoundSolutionSolveCode r n code = code) := by
  refine ⟨?_, ?_, ?_, ?_⟩
  · intro hn h2 hret
    rw [RoundSolutionSolveCode, if_pos hn, ModifySolveCodeAfterRounding,
      if_pos ⟨h2, hret⟩]
    refine ⟨rfl, ?_, ?_, by decide⟩
    · intro h1; rw [h1]; rfl
    · intro h1; rw [h1]; rfl
  · intro hn
    rw [RoundSolutionSolveCode, if_neg (by simpa using hn)]
  · intro h2
    rw [RoundSolutionSolveCode]
    by_cases hn : n ≠ 0
    · rw [if_pos hn, ModifySolveCodeAfterRounding, if_neg (by simp [h2])]
    · rw [if_neg hn]
  · intro hret
    rw [RoundSolutionSolveCode]
    by_cases hn : n ≠ 0
    · rw [if_pos hn, ModifySolveCodeAfterRounding, if_neg (by simp [hret])]
    · rw [if_neg hn]

/-- Witness for C5: with round=3 (assign and modify-status bits), one
rounded variable and a retrieved Solved code, the solve code becomes 2;
with count zero it stays 0. -/
theorem c5_round_solve_code_witness :
    RoundSolutionSolveCode 3 1 0 = 2 ∧ RoundSolutionSolveCode 3 0 0 = 0 := by
  refine ⟨?_, ?_⟩
  · exact ((c5_round_solve_code 3 1 0).1 (by decide) (by decide)
      (by decide)).2.1 (by decide)
  · exact (c5_round_solve_code 3 0 0).2.1 rfl

/-- C6: the default BasicConstraintConverter::Convert fails with an
error naming the constraint kind, and ConstraintKeeper::ConvertWith
re-throws every conversion error as converter name, ": ", original
message. -/
theorem c6_conversion_errors (kind converterName : String)
    (conversion : Except String Unit) :
    BasicConstraintConverter_Convert kind
      = .error ("Not converting constraint " ++ kind) ∧
    (∀ msg, conversion = .error msg →
      ConstraintKeeper_ConvertWith converterName conversion
        = .error (converterName ++ ": " ++ msg)) := by
  refine ⟨rfl, ?_⟩
  intro msg h
  subst h
  rfl

/-- Witness for C6 at a concrete kind, converter name and error. -/
theorem c6_conversion_errors_witness :
    BasicConstraintConverter_Convert "MaximumConstraint"
      = .error ("Not converting constraint " ++ "MaximumConstraint") ∧
    (∀ msg, (Except.error "boom" : Except String Unit) = .error msg →
      ConstraintKeeper_ConvertWith "MPToMIPConverter" (.error "boom")
        = .error ("MPToMIPConverter" ++ ": " ++ msg)) :=
  c6_conversion_errors "MaximumConstraint" "MPToMIPConverter" (.error "boom")

/-- C7 counterexample: with feasrelax mode 0 and a negative lbpen
default, the claim's trigger condition (mode nonzero or some default
negative) holds, yet InputStdExtras does not build the spec (mode stays
0), because the code only calls InputFeasRelaxData when the mode option
itself is nonzero. -/
theorem c7_counterexample :
    ((0 : ℤ) ≠ 0 ∨ (-1 : ℚ) < 0 ∨ (1 : ℚ) < 0 ∨ (1 : ℚ) < 0) ∧
    (InputStdExtras_feasrelax ⟨0, [], [], [], -1, 1, 1, 2, 2⟩
        FeasrelaxIOData.initial).mode = 0 := by
  constructor
  · right; left; norm_num
  · decide

/-- C7 (amended): the FeasibilityRelaxationSpec is built (its mode
becomes nonzero) iff the feasrelax mode option is nonzero AND not all
three override suffixes are empty with all three scalar defaults
negative. -/
theorem c7_feasrelax_build_condition (inp : FeasRelaxInputs) :
    (InputStdExtras_feasrelax inp FeasrelaxIOData.initial).mode ≠ 0 ↔
      (inp.feasRelaxMode ≠ 0 ∧
        ¬(inp.suf_lbpen = [] ∧ inp.suf_ubpen = [] ∧ inp.suf_rhspen = [] ∧
          inp.lbpen < 0 ∧ inp.ubpen < 0 ∧ inp.rhspen < 0)) := by
  unfold InputStdExtras_feasrelax InputFeasRelaxData
  split_ifs with hm hc
  · dsimp only [FeasrelaxIOData.initial]
    constructor
    · intro h; exact absurd rfl h
    · rintro ⟨_, hnot⟩
      exact absurd ⟨List.isEmpty_iff.mp hc.1, List.isEmpty_iff.mp hc.2.1,
        List.isEmpty_iff.mp hc.2.2.1, hc.2.2.2.1, hc.2.2.2.2.1, hc.2.2.2.2.2⟩ hnot
  · dsimp only
    constructor
    · intro _
      refine ⟨hm, fun hall => hc ?_⟩
      exact ⟨List.isEmpty_iff.mpr hall.1, List.isEmpty_iff.mpr hall.2.1,
        List.isEmpty_iff.mpr hall.2.2.1, hall.2.2.2.1, hall.2.2.2.2.1,
        hall.2.2.2.2.2⟩
    · intro _; exact hm
  · dsimp only [FeasrelaxIOData.initial]
    push_neg at hm
    constructor
    · intro h; exact absurd rfl h
    · rintro ⟨hmm, _⟩; exact absurd hm hmm

/-- Witness for C7's amended theorem: mode 1 with a nonempty lbpen
suffix builds the spec. -/
theorem c7_feasrelax_build_condition_witness :
    (InputStdExtras_feasrelax ⟨1, [2], [], [], 1, 1, 1, 1, 1⟩
        FeasrelaxIOData.initial).mode ≠ 0 :=
  (c7_feasrelax_build_condition ⟨1, [2], [], [], 1, 1, 1, 1, 1⟩).mpr
    ⟨by decide, by simp⟩

/-- C8 (code bug): the kappa option guards use logical && with the
constants 2 and 1 instead of bitwise &, so with alg:kappa = 1 (suffix
bit clear, since 1 &&& 2 = 0) the suffixes are still written for a
solved problem, and with alg:kappa = 2 (message bit clear, since
2 &&& 1 = 0) the message line is still appended — contradicting the
option's own documentation (sum of 1 = message, 2 = suffix). -/
theorem c8_kappa_bits_bug :
    kappaSuffixWritten SOLVED 1 = true ∧
    ReportSolution_kappaMessageLine 2 = true ∧
    (1 : ℕ) &&& 2 = 0 ∧ (2 : ℕ) &&& 1 = 0 := by
  refine ⟨by decide, by decide, by decide, by decide⟩

/-- C9: when the CPLEX status is unrecognized and the interrupter
reports a stop, ConvertSolutionStatus yields the Interrupted code and
the text "interrupted", never a Failure code. -/
theorem c9_interrupt_over_failure (solcount : ℤ) :
    ConvertSolutionStatus .unrecognized true solcount
      = (INTERRUPTED, "interrupted") ∧
    INTERRUPTED ≠ FAILURE ∧ INTERRUPTED ≠ FAILURE + 1 ∧
    INTERRUPTED < FAILURE := by
  exact ⟨rfl, by decide, by decide, by decide⟩

/-- Witness for C9 at solution-pool count 0. -/
theorem c9_interrupt_over_failure_witness :
    ConvertSolutionStatus .unrecognized true 0
      = (INTERRUPTED, "interrupted") :=
  (c9_interrupt_over_failure 0).1

/-- C10: when the override array's length is at most n, every write
index of the fill loop is in bounds, and (override nonempty or default
nonnegative) the result has length exactly n; when the override is
longer than n, the loop's write index reaches positions at or beyond n. -/
theorem c10_fill_write_bounds (suf : List ℚ) (pen : ℚ) (n : ℕ) :
    (suf.length ≤ n →
      (∀ i ∈ fillLoopWriteIndices suf.length, i < n) ∧
      ((suf ≠ [] ∨ 0 ≤ pen) → (FillFeasRelaxPenalty suf pen n).length = n)) ∧
    (n < suf.length → ∃ i ∈ fillLoopWriteIndices suf.length, n ≤ i) := by
  constructor
  · intro hlen
    constructor
    · intro i hi
      have hii : i < suf.length := by
        simpa [fillLoopWriteIndices, List.mem_reverse, List.mem_range] using hi
      omega
    · intro hor
      have hcond : ¬(suf.isEmpty ∧ pen < 0) := by
        rintro ⟨he, hp⟩
        rcases hor with hne | hpos
        · exact hne (List.isEmpty_iff.mp he)
        · exact absurd hp (not_lt.mpr hpos)
      rw [FillFeasRelaxPenalty, if_neg hcond, foldl_set_length,
        List.length_replicate]
  · intro hlt
    refine ⟨suf.length - 1, ?_, by omega⟩
    have hm : suf.length - 1 < suf.length := by omega
    simpa [fillLoopWriteIndices, List.mem_reverse, List.mem_range] using hm

/-- Witness for C10: in-bounds writes for override length 2 and n = 3,
length-3 result, and an out-of-bounds write index for override length 5
and n = 3. -/
theorem c10_fill_write_bounds_witness :
    (∀ i ∈ fillLoopWriteIndices ([-1, 2] : List ℚ).length, i < 3) ∧
    (FillFeasRelaxPenalty [-1, 2] 1 3).length = 3 ∧
    (∃ i ∈ fillLoopWriteIndices ([1, 1, 1, 1, 1] : List ℚ).length, 3 ≤ i) := by
  refine ⟨?_, ?_, ?_⟩
  · exact ((c10_fill_write_bounds [-1, 2] 1 3).1 (by decide)).1
  · exact ((c10_fill_write_bounds [-1, 2] 1 3).1 (by decide)).2
      (Or.inl (by decide))
  · exact (c10_fill_write_bounds [1, 1, 1, 1, 1] 1 3).2 (by decide)

end MpVerify
